import Mathlib

set_option autoImplicit false

namespace NemDash

/-!
Verification of the NEM Dashboard ingestion-and-aggregation engine against its
specification.  Pure parts of the frontend source are embedded directly; the
backend store, parser, orchestrator, resampler, metrics calculator and gap
detector are modelled from the specification, since their implementation is an
external collaborator of the frontend code present here.
-/

/-! ## Upsert store (dispatch_data table) -/

/-- Modelled from the spec: a stored `dispatch_data` row.  The backend store
implementation is not in src/; the natural key is `(settlementdate, duid)`
(schema docs: `UNIQUE(settlementdate, duid)`), and the remaining columns are
nullable non-key columns. -/
structure DispatchRecord where
  settlementdate : String
  duid : String
  scadavalue : Option ℚ
  totalcleared : Option ℚ
  availability : Option ℚ
  deriving DecidableEq

/-- Natural composite key of a dispatch row. -/
def recKey (r : DispatchRecord) : String × String :=
  (r.settlementdate, r.duid)

/-- The store holds some row with the given natural key. -/
def HasRowKey (store : List DispatchRecord) (k : String × String) : Prop :=
  ∃ row ∈ store, recKey row = k

/-- Row replacement used by the upsert: a row whose key collides with the new
record is replaced whole by the new record. -/
def replaceKey (r row : DispatchRecord) : DispatchRecord :=
  if recKey row = recKey r then r else row

/-- Modelled from the spec: idempotent upsert keyed by the natural key — on key
collision the new record's columns fully replace the old row ("last write
wins", full-row replace, not partial merge); otherwise the row is inserted. -/
def upsert (store : List DispatchRecord) (r : DispatchRecord) : List DispatchRecord :=
  if store.any (fun row => decide (recKey row = recKey r)) then
    store.map (replaceKey r)
  else
    store ++ [r]

/-- Modelled from the spec: ingesting a batch writes every parsed record via a
single upsert call keyed by its natural key, in batch order. -/
def ingest (store : List DispatchRecord) (batch : List DispatchRecord) : List DispatchRecord :=
  batch.foldl upsert store

/-- All stored rows carrying a given natural key, in store order. -/
def rowsForKey (store : List DispatchRecord) (k : String × String) : List DispatchRecord :=
  store.filter (fun row => decide (recKey row = k))

/-- The last record of a batch carrying a given natural key, if any. -/
def lastFor (batch : List DispatchRecord) (k : String × String) : Option DispatchRecord :=
  (batch.filter (fun r => decide (recKey r = k))).getLast?

/-- The parsed record of the example BASTYAN bundle. -/
def bastyanRecord : DispatchRecord :=
  ⟨"2025-01-15T10:30:00", "BASTYAN", some (mkRat 165 2), none, none⟩

/-- A previously stored row for the BASTYAN key with every non-key column set. -/
def oldStoredRow : DispatchRecord :=
  ⟨"2025-01-15T10:30:00", "BASTYAN", some 80, some 81, some 90⟩

/-- A replacement record for the same key that leaves two columns null. -/
def newNullRow : DispatchRecord :=
  ⟨"2025-01-15T10:30:00", "BASTYAN", some (mkRat 165 2), none, none⟩

/-! ## Resampling engine -/

/-- Embeds getAggregationLabel from StateDetailPage.js: the display label of
the aggregation level chosen for a window of the given length in hours. -/
def getAggregationLabel (hours : ℚ) : String :=
  if hours < 48 then "Real-time (5 min)"
  else if hours ≤ 168 then "30 min averages"
  else if hours ≤ 720 then "Hourly averages"
  else if hours ≤ 2160 then "Daily averages"
  else "Weekly averages"

/-- Modelled from the spec: the bucket width in minutes chosen by the
Resampling Engine solely from the window length in minutes (§4.3 table);
`none` means native 5-minute pass-through.  The backend implementation is not
in src/. -/
def bucketWidthMinutes (windowMinutes : ℕ) : Option ℕ :=
  if windowMinutes < 2880 then none
  else if windowMinutes ≤ 10080 then some 30
  else if windowMinutes ≤ 43200 then some 60
  else if windowMinutes ≤ 129600 then some 1440
  else some 10080

/-- The display label corresponding to a chosen bucket width. -/
def labelOfWidth : Option ℕ → String
  | none => "Real-time (5 min)"
  | some 30 => "30 min averages"
  | some 60 => "Hourly averages"
  | some 1440 => "Daily averages"
  | _ => "Weekly averages"

/-- A native 5-minute sample or an aggregated bucket (timestamp in minutes). -/
structure RawRow where
  ts : ℕ
  value : ℚ
  deriving DecidableEq

/-- Raw rows whose timestamp lies in the half-open window. -/
def rowsInWindow (rows : List RawRow) (start stop : ℕ) : List RawRow :=
  rows.filter (fun r => decide (start ≤ r.ts ∧ r.ts < stop))

/-- Modelled from the spec: window-relative buckets at start + k·width; each
bucket value is the arithmetic mean of the in-bucket samples, buckets with no
samples are omitted, output ascending by bucket start. -/
def aggregateWindow (rows : List RawRow) (start stop width : ℕ) : List RawRow :=
  ((List.range ((stop - start + width - 1) / width)).map (fun k => start + k * width)).filterMap
    (fun bs =>
      let xs := rows.filter (fun r => decide (bs ≤ r.ts ∧ r.ts < bs + width ∧ r.ts < stop))
      if xs.isEmpty then none
      else some ⟨bs, (xs.map RawRow.value).sum / xs.length⟩)

/-- Modelled from the spec: `query(table, start, end)` chooses granularity by
window length alone — native rows pass through for short windows, longer
windows are aggregated at the width from the table. -/
def query (rows : List RawRow) (start stop : ℕ) : List RawRow :=
  match bucketWidthMinutes (stop - start) with
  | none => rowsInWindow rows start stop
  | some w => aggregateWindow rows start stop w

/-! ## Merged-price resolver -/

/-- Modelled from the spec: the Merged-Price Resolver (§4.3) combines an
archival PUBLIC series with a near-real-time DISPATCH series over one window:
for every timestamp present in either input the archival value wins when
present, otherwise the near-real-time value is used; no other timestamp
appears.  The backend implementation is not in src/. -/
def mergePrices (pub nrt : List (ℕ × ℚ)) : List (ℕ × ℚ) :=
  pub ++ nrt.filter (fun e => ! pub.any (fun p => decide (p.1 = e.1)))

/-- The value carried by a price series at a timestamp, if any. -/
def lookupPrice (series : List (ℕ × ℚ)) (t : ℕ) : Option ℚ :=
  (series.find? (fun p => decide (p.1 = t))).map Prod.snd

/-! ## Gap detector -/

/-- One detected gap between two consecutive stored timestamps. -/
structure GapRecord where
  gap_start : ℕ
  gap_end : ℕ
  missing_intervals : ℕ
  deriving DecidableEq

/-- Round-half-up division on naturals, modelling round(delta / expected). -/
def roundDiv (a b : ℕ) : ℕ := (2 * a + b) / (2 * b)

/-- Modelled from the spec: the Gap Detector (§4.5) scans consecutive deltas
of the sorted distinct in-window timestamps (in seconds); a delta strictly
greater than `expected + eps` produces one gap record with
missing_intervals = round(delta/expected) − 1.  The backend implementation is
not in src/. -/
def detectGaps (expected eps : ℕ) : List ℕ → List GapRecord
  | t1 :: t2 :: rest =>
    (if expected + eps < t2 - t1
      then [⟨t1, t2, roundDiv (t2 - t1) expected - 1⟩] else [])
      ++ detectGaps expected eps (t2 :: rest)
  | _ => []

/-! ## Format parser (DISPATCH/UNIT_SCADA source) -/

/-- Split a character list on a delimiter; `cur` holds the reversed current
field. -/
def splitOnChar (delim : Char) : List Char → List Char → List (List Char)
  | cur, [] => [cur.reverse]
  | cur, c :: cs =>
    if c = delim then cur.reverse :: splitOnChar delim [] cs
    else splitOnChar delim (c :: cur) cs

/-- The comma-separated fields of one CSV line. -/
def lineFields (line : String) : List (List Char) :=
  splitOnChar ',' [] line.data

/-- Strip one leading and one trailing double quote, if present. -/
def stripQuotes (cs : List Char) : List Char :=
  let cs1 := match cs with
    | '"' :: rest => rest
    | other => other
  match cs1.reverse with
  | '"' :: rest => rest.reverse
  | _ => cs1

/-- Normalize one character of the portal's datetime format
("YYYY/MM/DD HH:MM:SS") into the local-naive convention
("YYYY-MM-DDTHH:MM:SS"). -/
def normChar (c : Char) : Char :=
  if c = '/' then '-' else if c = ' ' then 'T' else c

/-- Modelled from the spec: decode the portal's custom local-datetime string;
any other shape fails (and the row is skipped).  Parsing is where timestamps
are normalized, once. -/
def decodeSettlement (cs : List Char) : Option String :=
  if cs.length = 19 ∧ cs.get? 4 = some '/' ∧ cs.get? 7 = some '/'
      ∧ cs.get? 10 = some ' '
  then some (String.mk (cs.map normChar))
  else none

/-- The numeric value of a decimal digit, if the character is one. -/
def digitVal (c : Char) : Option ℕ :=
  if c.isDigit then some (c.toNat - 48) else none

def natOfDigitsAux : List Char → ℕ → Option ℕ
  | [], acc => some acc
  | c :: cs, acc =>
    match digitVal c with
    | some d => natOfDigitsAux cs (acc * 10 + d)
    | none => none

/-- The natural number denoted by a non-empty digit string. -/
def natOfDigits (cs : List Char) : Option ℕ :=
  if cs.isEmpty then none else natOfDigitsAux cs 0

/-- Decode an unsigned decimal field ("82" or "82.5") into an exact rational. -/
def decodeUnsigned (cs : List Char) : Option ℚ :=
  match splitOnChar '.' [] cs with
  | [ip] => (natOfDigits ip).map (fun n => (n : ℚ))
  | [ip, fp] =>
    match natOfDigits ip, natOfDigits fp with
    | some i, some f => some (mkRat (i * 10 ^ fp.length + f) (10 ^ fp.length))
    | _, _ => none
  | _ => none

/-- Modelled from the spec: decode a possibly signed decimal field; malformed
fields fail, so the row is skipped and counted. -/
def decodeDecimal (cs : List Char) : Option ℚ :=
  match cs with
  | '-' :: rest => (decodeUnsigned rest).map (fun q => -q)
  | _ => decodeUnsigned cs

/-- A typed record parsed from a D,DISPATCH,UNIT_SCADA data row. -/
structure ScadaRecord where
  settlement : String
  id : String
  value : ℚ
  deriving DecidableEq

/-- Outcome of classifying one CSV line against the requested source. -/
inductive LineOutcome where
  | ignored
  | malformed
  | parsed (r : ScadaRecord)
  deriving DecidableEq

/-- Modelled from the spec: classify a line by its leading marker triple
(row-class letter, table name, subtype); only lines matching
D,DISPATCH,UNIT_SCADA are retained; retained lines are decoded positionally
per the I-row schema (SETTLEMENTDATE at index 4, DUID at index 5, SCADAVALUE
at index 6); a retained line with too few fields or a failing decode is
skipped and counted, never fatal. -/
def classifyLine (line : String) : LineOutcome :=
  match lineFields line with
  | rowClass :: table :: subtype :: rest =>
    if rowClass = ['D'] ∧ table = "DISPATCH".data ∧ subtype = "UNIT_SCADA".data then
      match rest with
      | _ :: settle :: duid :: value :: _ =>
        match decodeSettlement (stripQuotes settle), decodeDecimal value with
        | some s, some v => .parsed ⟨s, String.mk duid, v⟩
        | _, _ => .malformed
      | _ => .malformed
    else .ignored
  | _ => .ignored

/-- Modelled from the spec: parse the decompressed archive's lines for the
DISPATCH/UNIT_SCADA source, yielding the typed records in order and the count
of skipped rows. -/
def parseUnitScada (lines : List String) : List ScadaRecord × ℕ :=
  lines.foldr
    (fun line acc =>
      match classifyLine line with
      | .parsed r => (r :: acc.1, acc.2)
      | .malformed => (acc.1, acc.2 + 1)
      | .ignored => acc)
    ([], 0)

/-- The example archive's comment row. -/
def exampleCLine : String := "C,NEMP.WORLD,DISPATCHSCADA,AEMO,PUBLIC,2025/01/15,10:30:05"

/-- The example archive's header row. -/
def exampleILine : String := "I,DISPATCH,UNIT_SCADA,1,SETTLEMENTDATE,DUID,SCADAVALUE,LASTCHANGED"

/-- The example archive's single matching data row. -/
def exampleDLine : String :=
  "D,DISPATCH,UNIT_SCADA,1,\"2025/01/15 10:30:00\",BASTYAN,82.5,\"2025/01/15 10:30:05\""

/-! ## Ingestion orchestrator -/

/-- Modelled from the spec: the error taxonomy of section 7. -/
inductive IngestError where
  | fetchError
  | formatError
  | rowParseError
  | persistenceError
  deriving DecidableEq

/-- Orchestrator state: the store plus the per-source ingestion cursors (last
successful cycle timestamp for each source). -/
structure OrchState where
  store : List DispatchRecord
  cursors : String → Option ℕ

/-- Modelled from the spec: a source's fetch → parse → persist pipeline; the
composite result is ok exactly when every stage succeeds, and carries the
first stage error otherwise. -/
def pipelineResult (fetched : Except IngestError (List String))
    (parseStage : List String → Except IngestError (List DispatchRecord))
    (persistStage : List DispatchRecord → Except IngestError Unit) :
    Except IngestError (List DispatchRecord) :=
  match fetched with
  | .error e => .error e
  | .ok lines =>
    match parseStage lines with
    | .error e => .error e
    | .ok recs =>
      match persistStage recs with
      | .error e => .error e
      | .ok _ => .ok recs

/-- Modelled from the spec: one source's step in a cycle — on success the
records are ingested and that source's cursor is set to the cycle timestamp;
on any failure the state is unchanged for that source (failure isolation). -/
def runSource (st : OrchState) (now : ℕ) (src : String)
    (result : Except IngestError (List DispatchRecord)) : OrchState :=
  match result with
  | .ok recs => ⟨ingest st.store recs, fun s => if s = src then some now else st.cursors s⟩
  | .error _ => st

/-- Modelled from the spec: one ingestion cycle over all configured sources,
each isolated from the others. -/
def runCycle (st : OrchState) (now : ℕ)
    (sources : List (String × Except IngestError (List DispatchRecord))) : OrchState :=
  sources.foldl (fun acc sr => runSource acc now sr.1 sr.2) st

/-- Initial orchestrator state of the cursor witness. -/
def witnessState : OrchState := ⟨[], fun _ => none⟩

/-- Cycle input of the cursor witness: one succeeding source and one failing
on persistence. -/
def witnessSources : List (String × Except IngestError (List DispatchRecord)) :=
  [("dispatch", Except.ok [bastyanRecord]),
   ("price", Except.error IngestError.persistenceError)]

/-! ## Market metrics -/

/-- Modelled from the spec: capture price of a fuel for one region-day — the
generation-weighted average price over the metered (price, generation)
intervals: Σ(generation·price) / Σ generation. -/
def capturePrice (intervals : List (ℚ × ℚ)) : ℚ :=
  (intervals.map (fun pg => pg.2 * pg.1)).sum / (intervals.map Prod.snd).sum

/-- Modelled from the spec: the time-weighted average price over a day of
uniform dispatch intervals — the plain mean of the interval prices. -/
def twap (prices : List ℚ) : ℚ :=
  prices.sum / prices.length

/-- Modelled from the spec: capture rate = capture price divided by the
region-day time-weighted average price. -/
def captureRate (intervals : List (ℚ × ℚ)) : ℚ :=
  capturePrice intervals / twap (intervals.map Prod.fst)

/-! ## Frontend StateDetailPage -/

/-- One generation-history record as consumed by StateDetailPage.js: a fuel
source and a possibly-null generation_mw. -/
structure GenHistoryRecord where
  fuel_source : String
  generation_mw : Option ℚ
  deriving DecidableEq

/-- One fuel-mix entry, as produced by aggregatedFuelMix and as delivered by
the region fuel-mix endpoint. -/
structure FuelMixEntry where
  fuel_source : String
  generation_mw : ℚ
  percentage : ℚ
  unit_count : ℕ
  deriving DecidableEq

/-- JS-object accumulation of per-fuel totals: an existing key is updated in
place, a new key is appended (insertion order, as for JS string keys). -/
def addTotal : List (String × ℚ) → String → ℚ → List (String × ℚ)
  | [], f, v => [(f, v)]
  | (g, w) :: rest, f, v =>
    if g = f then (g, w + v) :: rest else (g, w) :: addTotal rest f v

/-- Embeds the fuelTotals accumulation of aggregatedFuelMix in
StateDetailPage.js: `fuelTotals[fuel] = (fuelTotals[fuel] || 0) +
(record.generation_mw || 0)` over the generation history. -/
def fuelTotals (history : List GenHistoryRecord) : List (String × ℚ) :=
  history.foldl (fun acc row => addTotal acc row.fuel_source (row.generation_mw.getD 0)) []

/-- Embeds the source's `Object.values(fuelTotals).reduce((a, b) => a + b, 0)`:
the sum of the per-fuel totals. -/
def fuelMixTotal (history : List GenHistoryRecord) : ℚ :=
  (fuelTotals history).foldl (fun acc p => acc + p.2) 0

/-- One entry of the aggregated mix: a fuel's total and its share of the
overall total. -/
def fuelEntry (t : ℚ) (p : String × ℚ) : FuelMixEntry :=
  ⟨p.1, p.2, p.2 / t * 100, 0⟩

/-- Insertion step of the descending sort of fuel-mix entries. -/
def insertByGen (e : FuelMixEntry) : List FuelMixEntry → List FuelMixEntry
  | [] => [e]
  | x :: xs =>
    if e.generation_mw ≤ x.generation_mw then x :: insertByGen e xs
    else e :: x :: xs

/-- Sort fuel-mix entries in non-increasing order of generation_mw, modelling
the source's `.sort((a, b) => b.generation_mw - a.generation_mw)`. -/
def sortByGenDesc : List FuelMixEntry → List FuelMixEntry
  | [] => []
  | x :: xs => insertByGen x (sortByGenDesc xs)

/-- Embeds aggregatedFuelMix from StateDetailPage.js (lines 117–138): an empty
history or a zero total yields []; otherwise one entry per distinct fuel with
its share of the total, sorted by generation descending. -/
def aggregatedFuelMix (history : List GenHistoryRecord) : List FuelMixEntry :=
  if history = [] then []
  else if fuelMixTotal history = 0 then []
  else sortByGenDesc ((fuelTotals history).map (fuelEntry (fuelMixTotal history)))

/-- The concrete generation history of the C9 witness. -/
def historyW : List GenHistoryRecord :=
  [⟨"Coal", some 100⟩, ⟨"Wind", some 50⟩, ⟨"Coal", some 20⟩]

/-- Region summary as consumed by StateDetailPage.js. -/
structure RegionSummary where
  region : String
  latest_price : ℚ
  total_demand : ℚ
  total_generation : ℚ
  generator_count : ℕ
  deriving DecidableEq

/-- One price-history point. -/
structure PricePoint where
  settlementdate : String
  price : ℚ
  deriving DecidableEq

/-- The StateDetailPage component state written by fetchData. -/
structure StateDetailData where
  priceHistory : List PricePoint
  fuelMix : List FuelMixEntry
  summary : Option RegionSummary
  generationHistory : List GenHistoryRecord

/-- Outcome of one axios request of the Promise.all batch. -/
inductive FetchOutcome (α : Type) where
  | ok (value : α)
  | failed
  deriving DecidableEq

/-- Embeds fetchData of StateDetailPage.js (lines 788–822): the four parallel
region requests must all succeed to install the fetched data; if any fails,
the catch branch installs the fabricated all-zero summary, the three-entry
zero fuel mix (Coal, Solar, Wind) and empty histories. -/
def fetchDataState (region : String)
    (priceResp : FetchOutcome (List PricePoint))
    (fuelResp : FetchOutcome (List FuelMixEntry))
    (summaryResp : FetchOutcome RegionSummary)
    (genResp : FetchOutcome (List GenHistoryRecord)) : StateDetailData :=
  match priceResp, fuelResp, summaryResp, genResp with
  | .ok p, .ok f, .ok s, .ok g => ⟨p, f, some s, g⟩
  | _, _, _, _ =>
    ⟨[], [⟨"Coal", 0, 0, 0⟩, ⟨"Solar", 0, 0, 0⟩, ⟨"Wind", 0, 0, 0⟩],
      some ⟨region, 0, 0, 0, 0⟩, []⟩

/-! ## Basic store lemmas -/

theorem mem_rowsForKey {store : List DispatchRecord} {k : String × String}
    {row : DispatchRecord} : row ∈ rowsForKey store k ↔ row ∈ store ∧ recKey row = k := by
  simp [rowsForKey, List.mem_filter]

theorem recKey_replaceKey (r row : DispatchRecord) :
    recKey (replaceKey r row) = recKey row := by
  unfold replaceKey
  split
  · rename_i h
    exact h.symm
  · rfl

theorem upsert_anyTrue {store : List DispatchRecord} {r : DispatchRecord}
    (h : HasRowKey store (recKey r)) :
    store.any (fun row => decide (recKey row = recKey r)) = true := by
  obtain ⟨row, hmem, hkey⟩ := h
  simp [List.any_eq_true]
  exact ⟨row, hmem, hkey⟩

theorem upsert_anyFalse {store : List DispatchRecord} {r : DispatchRecord}
    (h : ¬ HasRowKey store (recKey r)) :
    store.any (fun row => decide (recKey row = recKey r)) = false := by
  rw [List.any_eq_false]
  intro row hmem
  simp only [decide_eq_true_eq]
  intro hkey
  exact h ⟨row, hmem, hkey⟩

/-- Full replace: every row of the upserted store carrying the new record's key
is the new record itself. -/
theorem upsert_rows_at_key {store : List DispatchRecord} {r row : DispatchRecord}
    (hmem : row ∈ upsert store r) (hkey : recKey row = recKey r) : row = r := by
  unfold upsert at hmem
  split at hmem
  · obtain ⟨orig, _, horig⟩ := List.mem_map.mp hmem
    unfold replaceKey at horig
    split at horig
    · exact horig.symm
    · rename_i hne
      subst horig
      exact absurd hkey hne
  · rename_i hany
    rcases List.mem_append.mp hmem with hS | hr
    · exfalso
      apply hany
      rw [List.any_eq_true]
      refine ⟨row, hS, ?_⟩
      simpa using hkey
    · simpa using hr

/-- The upserted store always carries the new record's key. -/
theorem upsert_hasKey (store : List DispatchRecord) (r : DispatchRecord) :
    HasRowKey (upsert store r) (recKey r) := by
  unfold upsert
  split
  · rename_i hany
    rw [List.any_eq_true] at hany
    obtain ⟨row, hmem, hkey⟩ := hany
    simp only [decide_eq_true_eq] at hkey
    refine ⟨replaceKey r row, List.mem_map_of_mem _ hmem, ?_⟩
    rw [recKey_replaceKey, hkey]
  · exact ⟨r, by simp, rfl⟩

/-- Keys only grow under upsert. -/
theorem upsert_hasKey_mono {store : List DispatchRecord} {k : String × String}
    (r : DispatchRecord) (h : HasRowKey store k) : HasRowKey (upsert store r) k := by
  obtain ⟨row, hmem, hkey⟩ := h
  unfold upsert
  split
  · exact ⟨replaceKey r row, List.mem_map_of_mem _ hmem, by rw [recKey_replaceKey, hkey]⟩
  · exact ⟨row, List.mem_append_left _ hmem, hkey⟩

/-- Filtering on a key other than the replaced one ignores the replacement map. -/
theorem filter_map_replace_other (r : DispatchRecord) (k : String × String)
    (hne : k ≠ recKey r) :
    ∀ store : List DispatchRecord,
      List.filter (fun row => decide (recKey row = k)) (store.map (replaceKey r))
        = List.filter (fun row => decide (recKey row = k)) store
  | [] => rfl
  | x :: xs => by
    simp only [List.map_cons, List.filter_cons, recKey_replaceKey]
    by_cases hx : recKey x = k
    · have hxx : replaceKey r x = x := by
        unfold replaceKey
        rw [if_neg]
        rw [hx]
        exact hne
      simp [hx, hxx, filter_map_replace_other r k hne xs]
    · simp [hx, filter_map_replace_other r k hne xs]

/-- Filtering on the replaced key after the replacement map yields copies of the
new record, one per previously matching row. -/
theorem filter_map_replace_self (r : DispatchRecord) :
    ∀ store : List DispatchRecord,
      List.filter (fun row => decide (recKey row = recKey r)) (store.map (replaceKey r))
        = (List.filter (fun row => decide (recKey row = recKey r)) store).map (fun _ => r)
  | [] => rfl
  | x :: xs => by
    simp only [List.map_cons, List.filter_cons, recKey_replaceKey]
    by_cases hx : recKey x = recKey r
    · have hxx : replaceKey r x = r := by
        unfold replaceKey
        rw [if_pos hx]
      simp [hx, hxx, filter_map_replace_self r xs]
    · simp [hx, filter_map_replace_self r xs]

/-- Rows at a key other than the upserted record's key are untouched. -/
theorem rowsForKey_upsert_other {store : List DispatchRecord} {r : DispatchRecord}
    {k : String × String} (hne : k ≠ recKey r) :
    rowsForKey (upsert store r) k = rowsForKey store k := by
  unfold upsert
  split
  · exact filter_map_replace_other r k hne store
  · unfold rowsForKey
    rw [List.filter_append]
    have : List.filter (fun row => decide (recKey row = k)) [r] = [] := by
      simp [List.filter, hne.symm]
    rw [this, List.append_nil]

/-- When the key is already present, upsert preserves the store's length. -/
theorem upsert_length_of_hasKey {store : List DispatchRecord} {r : DispatchRecord}
    (h : HasRowKey store (recKey r)) : (upsert store r).length = store.length := by
  unfold upsert
  rw [upsert_anyTrue h]
  simp

/-- When the key is already present, upsert preserves the number of rows at the
new record's key. -/
theorem rowsForKey_upsert_self_length {store : List DispatchRecord} {r : DispatchRecord}
    (h : HasRowKey store (recKey r)) :
    (rowsForKey (upsert store r) (recKey r)).length
      = (rowsForKey store (recKey r)).length := by
  unfold upsert
  rw [upsert_anyTrue h]
  simp only [if_pos]
  unfold rowsForKey
  rw [filter_map_replace_self r store, List.length_map]

/-! ## Ingestion lemmas -/

theorem ingest_nil (store : List DispatchRecord) : ingest store [] = store := rfl

theorem ingest_cons (store : List DispatchRecord) (r : DispatchRecord)
    (batch : List DispatchRecord) :
    ingest store (r :: batch) = ingest (upsert store r) batch := rfl

theorem ingest_hasKey_mono : ∀ (batch : List DispatchRecord) (store : List DispatchRecord)
    (k : String × String), HasRowKey store k → HasRowKey (ingest store batch) k
  | [], _, _, h => h
  | r :: rest, store, k, h =>
    ingest_hasKey_mono rest (upsert store r) k (upsert_hasKey_mono r h)

theorem ingest_hasKey_batch : ∀ (batch : List DispatchRecord) (store : List DispatchRecord)
    (r : DispatchRecord), r ∈ batch → HasRowKey (ingest store batch) (recKey r)
  | [], _, _, h => absurd h (List.not_mem_nil _)
  | x :: rest, store, r, h => by
    rw [ingest_cons]
    rcases List.mem_cons.mp h with heq | hrest
    · subst heq
      exact ingest_hasKey_mono rest _ _ (upsert_hasKey _ _)
    · exact ingest_hasKey_batch rest (upsert store x) r hrest

theorem ingest_length_of_covered : ∀ (batch : List DispatchRecord)
    (store : List DispatchRecord),
    (∀ r ∈ batch, HasRowKey store (recKey r)) → (ingest store batch).length = store.length
  | [], _, _ => rfl
  | x :: rest, store, h => by
    rw [ingest_cons]
    have hx : HasRowKey store (recKey x) := h x (List.mem_cons_self _ _)
    have hrest : ∀ r ∈ rest, HasRowKey (upsert store x) (recKey r) := fun r hr =>
      upsert_hasKey_mono x (h r (List.mem_cons_of_mem _ hr))
    rw [ingest_length_of_covered rest (upsert store x) hrest, upsert_length_of_hasKey hx]

theorem rowsForKey_ingest_not_in_batch : ∀ (batch : List DispatchRecord)
    (store : List DispatchRecord) (k : String × String),
    (∀ r ∈ batch, recKey r ≠ k) → rowsForKey (ingest store batch) k = rowsForKey store k
  | [], _, _, _ => rfl
  | x :: rest, store, k, h => by
    rw [ingest_cons]
    rw [rowsForKey_ingest_not_in_batch rest (upsert store x) k
      (fun r hr => h r (List.mem_cons_of_mem _ hr))]
    exact rowsForKey_upsert_other (Ne.symm (h x (List.mem_cons_self _ _)))

theorem rowsForKey_ingest_length : ∀ (batch : List DispatchRecord)
    (store : List DispatchRecord) (k : String × String), HasRowKey store k →
    (rowsForKey (ingest store batch) k).length = (rowsForKey store k).length
  | [], _, _, _ => rfl
  | x :: rest, store, k, h => by
    rw [ingest_cons]
    rw [rowsForKey_ingest_length rest (upsert store x) k (upsert_hasKey_mono x h)]
    by_cases hk : k = recKey x
    · subst hk
      exact rowsForKey_upsert_self_length h
    · rw [rowsForKey_upsert_other hk]

theorem lastFor_of_mem_tail {rest : List DispatchRecord} {k : String × String}
    (x : DispatchRecord) (h : ∃ r ∈ rest, recKey r = k) :
    lastFor (x :: rest) k = lastFor rest k := by
  unfold lastFor
  have hne : rest.filter (fun r => decide (recKey r = k)) ≠ [] := by
    intro hnil
    obtain ⟨r, hr, hrk⟩ := h
    have : r ∈ rest.filter (fun r => decide (recKey r = k)) :=
      List.mem_filter.mpr ⟨hr, by simpa using hrk⟩
    rw [hnil] at this
    exact List.not_mem_nil r this
  rw [List.filter_cons]
  split
  · obtain ⟨b, t, hbt⟩ := List.exists_cons_of_ne_nil hne
    rw [hbt, List.getLast?_cons_cons]
  · rfl

theorem lastFor_single {rest : List DispatchRecord} {k : String × String}
    {x : DispatchRecord} (hx : recKey x = k) (hrest : ∀ r ∈ rest, recKey r ≠ k) :
    lastFor (x :: rest) k = some x := by
  unfold lastFor
  rw [List.filter_cons]
  have hnil : rest.filter (fun r => decide (recKey r = k)) = [] :=
    List.filter_eq_nil_iff.mpr (fun r hr => by simpa using hrest r hr)
  rw [if_pos (by simpa using hx), hnil]
  rfl

theorem lastFor_not_mem {batch : List DispatchRecord} {k : String × String}
    (h : ∀ r ∈ batch, recKey r ≠ k) : lastFor batch k = none := by
  unfold lastFor
  rw [List.filter_eq_nil_iff.mpr (fun r hr => by simpa using h r hr)]
  rfl

theorem lastFor_isSome {batch : List DispatchRecord} {k : String × String}
    (h : ∃ r ∈ batch, recKey r = k) : ∃ v, lastFor batch k = some v := by
  unfold lastFor
  obtain ⟨r, hr, hrk⟩ := h
  have hne : batch.filter (fun r => decide (recKey r = k)) ≠ [] := by
    intro hnil
    have : r ∈ batch.filter (fun r => decide (recKey r = k)) :=
      List.mem_filter.mpr ⟨hr, by simpa using hrk⟩
    rw [hnil] at this
    exact List.not_mem_nil r this
  obtain ⟨v, hv⟩ := Option.isSome_iff_exists.mp (List.getLast?_isSome.mpr hne)
  exact ⟨v, hv⟩

/-- After ingesting a batch, every stored row at a key of the batch equals the
last record of the batch with that key. -/
theorem ingest_rows_val : ∀ (batch : List DispatchRecord) (store : List DispatchRecord)
    (k : String × String) (v : DispatchRecord), lastFor batch k = some v →
    ∀ row ∈ ingest store batch, recKey row = k → row = v
  | [], _, k, v, h => by
    rw [lastFor_not_mem (by intro r hr; cases hr)] at h
    cases h
  | x :: rest, store, k, v, h => by
    intro row hrow hkey
    by_cases hmem : ∃ r ∈ rest, recKey r = k
    · have hrest : lastFor rest k = some v := by
        rw [← lastFor_of_mem_tail x hmem]
        exact h
      exact ingest_rows_val rest (upsert store x) k v hrest row
        (by rwa [ingest_cons] at hrow) hkey
    · push_neg at hmem
      by_cases hx : recKey x = k
      · have hv : v = x := by
          have hs := lastFor_single hx hmem
          rw [h] at hs
          exact Option.some.inj hs

        rw [ingest_cons] at hrow
        have hrows := rowsForKey_ingest_not_in_batch rest (upsert store x) k hmem
        have hrowmem : row ∈ rowsForKey (ingest (upsert store x) rest) k :=
          mem_rowsForKey.mpr ⟨hrow, hkey⟩
        rw [hrows] at hrowmem
        obtain ⟨hmem', hkey'⟩ := mem_rowsForKey.mp hrowmem
        rw [hv]
        exact upsert_rows_at_key hmem' (by rw [hkey', ← hx])
      · exfalso
        have hnone : lastFor (x :: rest) k = none := by
          apply lastFor_not_mem
          intro r hr
          rcases List.mem_cons.mp hr with he | hr'
          · subst he
            exact hx
          · exact hmem r hr'
        rw [h] at hnone
        cases hnone

theorem list_all_eq {α : Type} (v : α) : ∀ (l1 l2 : List α),
    (∀ x ∈ l1, x = v) → (∀ x ∈ l2, x = v) → l1.length = l2.length → l1 = l2
  | [], [], _, _, _ => rfl
  | [], _ :: _, _, _, hlen => by simp at hlen
  | _ :: _, [], _, _, hlen => by simp at hlen
  | x :: xs, y :: ys, h1, h2, hlen => by
    rw [h1 x (List.mem_cons_self _ _), h2 y (List.mem_cons_self _ _)]
    congr 1
    exact list_all_eq v xs ys (fun a ha => h1 a (List.mem_cons_of_mem _ ha))
      (fun a ha => h2 a (List.mem_cons_of_mem _ ha)) (by simpa using hlen)

/-- C1: ingestion is idempotent.  Replaying a batch leaves the store's row
count unchanged and the stored rows for every natural key of the batch
identical (same count and same column values) to a single ingestion; and
ingesting the example BASTYAN bundle twice leaves exactly one stored row for
the key (2025-01-15T10:30:00, BASTYAN). -/
theorem ingest_idempotent :
    (∀ (store batch : List DispatchRecord),
      (ingest (ingest store batch) batch).length = (ingest store batch).length
      ∧ ∀ k, (∃ r ∈ batch, recKey r = k) →
          rowsForKey (ingest (ingest store batch) batch) k
            = rowsForKey (ingest store batch) k)
    ∧ (rowsForKey (ingest (ingest [] [bastyanRecord]) [bastyanRecord])
        ("2025-01-15T10:30:00", "BASTYAN")).length = 1 := by
  constructor
  · intro store batch
    constructor
    · exact ingest_length_of_covered batch _ (fun r hr => ingest_hasKey_batch batch store r hr)
    · intro k hk
      obtain ⟨r0, hr0, hr0k⟩ := hk
      obtain ⟨v, hv⟩ := lastFor_isSome ⟨r0, hr0, hr0k⟩
      have hall1 : ∀ row ∈ rowsForKey (ingest (ingest store batch) batch) k, row = v := by
        intro row hrow
        obtain ⟨hm, hkk⟩ := mem_rowsForKey.mp hrow
        exact ingest_rows_val batch _ k v hv row hm hkk
      have hall2 : ∀ row ∈ rowsForKey (ingest store batch) k, row = v := by
        intro row hrow
        obtain ⟨hm, hkk⟩ := mem_rowsForKey.mp hrow
        exact ingest_rows_val batch _ k v hv row hm hkk
      have hlen : (rowsForKey (ingest (ingest store batch) batch) k).length
          = (rowsForKey (ingest store batch) k).length := by
        apply rowsForKey_ingest_length
        rw [← hr0k]
        exact ingest_hasKey_batch batch store r0 hr0
      exact list_all_eq v _ _ hall1 hall2 hlen
  · decide

/-- Witness for C1 at the concrete BASTYAN bundle. -/
theorem ingest_idempotent_witness :
    (∃ r ∈ [bastyanRecord], recKey r = (("2025-01-15T10:30:00", "BASTYAN") : String × String))
    ∧ rowsForKey (ingest (ingest [] [bastyanRecord]) [bastyanRecord])
        ("2025-01-15T10:30:00", "BASTYAN")
      = rowsForKey (ingest [] [bastyanRecord]) ("2025-01-15T10:30:00", "BASTYAN") :=
  ⟨by decide, (ingest_idempotent.1 [] [bastyanRecord]).2 _ (by decide)⟩

/-- C4: upsert on key collision is a full-row replace — every row of the
upserted store carrying the new record's natural key is the new record itself
(so no non-key column survives by partial merge, including columns the new
record leaves null), and the key is present after the upsert. -/
theorem upsert_full_replace (store : List DispatchRecord) (r row : DispatchRecord)
    (hmem : row ∈ upsert store r) (hkey : recKey row = recKey r) :
    row = r ∧ HasRowKey (upsert store r) (recKey r) :=
  ⟨upsert_rows_at_key hmem hkey, upsert_hasKey store r⟩

/-- Witness for C4: replacing a fully populated BASTYAN row by a record with
null columns leaves exactly the new record, nulls included. -/
theorem upsert_full_replace_witness :
    upsert [oldStoredRow] newNullRow = [newNullRow]
    ∧ (newNullRow = newNullRow
        ∧ HasRowKey (upsert [oldStoredRow] newNullRow) (recKey newNullRow)) :=
  ⟨by decide, upsert_full_replace [oldStoredRow] newNullRow newNullRow (by decide) (by decide)⟩

/-! ## Resampling theorems -/

theorem bucketWidth_native {m : ℕ} (h : m < 2880) : bucketWidthMinutes m = none := by
  unfold bucketWidthMinutes
  rw [if_pos h]

theorem bucketWidth_30min {m : ℕ} (h1 : 2880 ≤ m) (h2 : m ≤ 10080) :
    bucketWidthMinutes m = some 30 := by
  unfold bucketWidthMinutes
  rw [if_neg (by omega), if_pos h2]

theorem bucketWidth_hourly {m : ℕ} (h1 : 10080 < m) (h2 : m ≤ 43200) :
    bucketWidthMinutes m = some 60 := by
  unfold bucketWidthMinutes
  rw [if_neg (by omega), if_neg (by omega), if_pos h2]

theorem bucketWidth_daily {m : ℕ} (h1 : 43200 < m) (h2 : m ≤ 129600) :
    bucketWidthMinutes m = some 1440 := by
  unfold bucketWidthMinutes
  rw [if_neg (by omega), if_neg (by omega), if_neg (by omega), if_pos h2]

theorem bucketWidth_weekly {m : ℕ} (h : 129600 < m) : bucketWidthMinutes m = some 10080 := by
  unfold bucketWidthMinutes
  rw [if_neg (by omega), if_neg (by omega), if_neg (by omega), if_neg (by omega)]

theorem label_agrees (h : ℕ) :
    getAggregationLabel h = labelOfWidth (bucketWidthMinutes (60 * h)) := by
  unfold getAggregationLabel
  by_cases h1 : h < 48
  · rw [if_pos (by exact_mod_cast h1), bucketWidth_native (by omega)]
    rfl
  · rw [if_neg (by exact_mod_cast h1)]
    by_cases h2 : h ≤ 168
    · rw [if_pos (by exact_mod_cast h2), bucketWidth_30min (by omega) (by omega)]
      rfl
    · rw [if_neg (by exact_mod_cast h2)]
      by_cases h3 : h ≤ 720
      · rw [if_pos (by exact_mod_cast h3), bucketWidth_hourly (by omega) (by omega)]
        rfl
      · rw [if_neg (by exact_mod_cast h3)]
        by_cases h4 : h ≤ 2160
        · rw [if_pos (by exact_mod_cast h4), bucketWidth_daily (by omega) (by omega)]
          rfl
        · rw [if_neg (by exact_mod_cast h4), bucketWidth_weekly (by omega)]
          rfl

/-- C2: the query granularity is chosen solely from the window length: under
48 h native 5-minute rows pass through unaggregated; 48 h–7 d uses 30-minute
buckets; 7–30 d hourly; 30–90 d daily; over 90 d weekly; a query over
[0, 10 days) is aggregated at hourly buckets; and the source's
getAggregationLabel agrees with this width table on every whole-hour window. -/
theorem aggregation_granularity :
    (∀ m : ℕ, m < 2880 → bucketWidthMinutes m = none)
    ∧ (∀ m : ℕ, 2880 ≤ m → m ≤ 10080 → bucketWidthMinutes m = some 30)
    ∧ (∀ m : ℕ, 10080 < m → m ≤ 43200 → bucketWidthMinutes m = some 60)
    ∧ (∀ m : ℕ, 43200 < m → m ≤ 129600 → bucketWidthMinutes m = some 1440)
    ∧ (∀ m : ℕ, 129600 < m → bucketWidthMinutes m = some 10080)
    ∧ (∀ (rows : List RawRow) (start stop : ℕ), stop - start < 2880 →
        query rows start stop = rowsInWindow rows start stop)
    ∧ (∀ rows : List RawRow, query rows 0 14400 = aggregateWindow rows 0 14400 60)
    ∧ (∀ h : ℕ, getAggregationLabel h = labelOfWidth (bucketWidthMinutes (60 * h))) := by
  refine ⟨fun m h => bucketWidth_native h,
    fun m h1 h2 => bucketWidth_30min h1 h2,
    fun m h1 h2 => bucketWidth_hourly h1 h2,
    fun m h1 h2 => bucketWidth_daily h1 h2,
    fun m h => bucketWidth_weekly h, ?_, ?_, label_agrees⟩
  · intro rows start stop h
    unfold query
    rw [bucketWidth_native h]
  · intro rows
    unfold query
    rw [bucketWidth_hourly (by omega) (by omega)]

/-- Witness for C2: a 10-day window (14400 minutes) gets hourly buckets and
the 36-hour label is the native one. -/
theorem aggregation_granularity_witness :
    ((10080 : ℕ) < 14400 ∧ (14400 : ℕ) ≤ 43200)
    ∧ bucketWidthMinutes 14400 = some 60
    ∧ query [] 0 14400 = aggregateWindow [] 0 14400 60
    ∧ getAggregationLabel 36 = labelOfWidth (bucketWidthMinutes (60 * 36)) :=
  ⟨⟨by decide, by decide⟩, aggregation_granularity.2.2.1 14400 (by decide) (by decide),
    aggregation_granularity.2.2.2.2.2.2.1 [],
    aggregation_granularity.2.2.2.2.2.2.2 36⟩

/-! ## Merged-price theorems -/

theorem find?_filter_of_pub_none {pub : List (ℕ × ℚ)} {t : ℕ}
    (hpub : pub.find? (fun p => decide (p.1 = t)) = none) :
    ∀ nrt : List (ℕ × ℚ),
      (nrt.filter (fun e => ! pub.any (fun p => decide (p.1 = e.1)))).find?
          (fun p => decide (p.1 = t))
        = nrt.find? (fun p => decide (p.1 = t))
  | [] => rfl
  | e :: rest => by
    have hnone : ∀ p ∈ pub, p.1 ≠ t := by
      intro p hp
      have := List.find?_eq_none.mp hpub p hp
      simpa using this
    rw [List.filter_cons]
    by_cases ht : e.1 = t
    · have hkeep : (! pub.any (fun p => decide (p.1 = e.1))) = true := by
        simp only [Bool.not_eq_true', List.any_eq_false, decide_eq_true_eq]
        intro p hp
        rw [ht]
        exact hnone p hp
      rw [if_pos hkeep, List.find?_cons_of_pos _ (by simpa using ht),
        List.find?_cons_of_pos _ (by simpa using ht)]
    · split
      · rw [List.find?_cons_of_neg _ (by simpa using ht),
          List.find?_cons_of_neg _ (by simpa using ht)]
        exact find?_filter_of_pub_none hpub rest
      · rw [List.find?_cons_of_neg _ (by simpa using ht)]
        exact find?_filter_of_pub_none hpub rest

/-- C3: the merged series carries exactly the timestamps present in at least
one input, with the archival (PUBLIC) value whenever present and the
near-real-time (DISPATCH) value otherwise, and nothing else; on the example,
PUBLIC = {D1 ↦ 50} and DISPATCH = {D1 ↦ 55, D2 ↦ 58} merge to
{D1 ↦ 50, D2 ↦ 58}. -/
theorem merge_prices_spec :
    (∀ (pub nrt : List (ℕ × ℚ)) (t : ℕ),
      ((lookupPrice (mergePrices pub nrt) t).isSome
          ↔ (lookupPrice pub t).isSome ∨ (lookupPrice nrt t).isSome)
      ∧ lookupPrice (mergePrices pub nrt) t
          = (lookupPrice pub t).or (lookupPrice nrt t))
    ∧ mergePrices [(1, 50)] [(1, 55), (2, 58)] = [(1, 50), (2, 58)] := by
  constructor
  · intro pub nrt t
    have heq : lookupPrice (mergePrices pub nrt) t
        = (lookupPrice pub t).or (lookupPrice nrt t) := by
      unfold lookupPrice mergePrices
      rw [List.find?_append]
      cases hpub : pub.find? (fun p => decide (p.1 = t)) with
      | some v => simp
      | none => rw [find?_filter_of_pub_none hpub nrt]; simp
    refine ⟨?_, heq⟩
    rw [heq]
    cases lookupPrice pub t <;> cases lookupPrice nrt t <;> simp
  · decide

/-! ## Gap detector theorems -/

theorem mem_detectGaps (expected eps : ℕ) :
    ∀ (ts : List ℕ) (g : GapRecord),
      g ∈ detectGaps expected eps ts
        ↔ ∃ p ∈ ts.zip ts.tail, expected + eps < p.2 - p.1
            ∧ g = ⟨p.1, p.2, roundDiv (p.2 - p.1) expected - 1⟩
  | [], g => by simp [detectGaps]
  | [t], g => by simp [detectGaps]
  | t1 :: t2 :: rest, g => by
    have ih := mem_detectGaps expected eps (t2 :: rest) g
    show g ∈ (if expected + eps < t2 - t1
        then [(⟨t1, t2, roundDiv (t2 - t1) expected - 1⟩ : GapRecord)] else [])
        ++ detectGaps expected eps (t2 :: rest) ↔ _
    rw [List.mem_append, ih]
    by_cases hgap : expected + eps < t2 - t1
    · rw [if_pos hgap]
      simp [List.zip_cons_cons, List.mem_cons, exists_eq_or_imp, hgap]
    · rw [if_neg hgap]
      simp [List.zip_cons_cons, List.mem_cons, exists_eq_or_imp, hgap]

/-- C6: for a sorted list of distinct timestamps, detect returns one gap
record per consecutive pair whose delta strictly exceeds expected + eps, with
start t_i, end t_{i+1} and missing_intervals = round(delta/expected) − 1, and
no others; on 10:20, 10:25, 10:30, 10:50, 10:55 (in seconds of day) with a
5-minute expected interval it yields exactly the gap
{start = 10:30, end = 10:50, missing_intervals = 3}. -/
theorem gap_detect_spec :
    (∀ (expected eps : ℕ) (ts : List ℕ), List.Pairwise (fun a b => a < b) ts →
      ∀ g, g ∈ detectGaps expected eps ts
        ↔ ∃ p ∈ ts.zip ts.tail, expected + eps < p.2 - p.1
            ∧ g = ⟨p.1, p.2, roundDiv (p.2 - p.1) expected - 1⟩)
    ∧ detectGaps 300 5 [37200, 37500, 37800, 39000, 39300]
        = [⟨37800, 39000, 3⟩] :=
  ⟨fun expected eps ts _ g => mem_detectGaps expected eps ts g, by decide⟩

/-- Witness for C6 at the example timestamp list. -/
theorem gap_detect_spec_witness :
    List.Pairwise (fun a b => a < b) [37200, 37500, 37800, 39000, 39300]
    ∧ ((⟨37800, 39000, 3⟩ : GapRecord)
          ∈ detectGaps 300 5 [37200, 37500, 37800, 39000, 39300]
        ↔ ∃ p ∈ ([37200, 37500, 37800, 39000, 39300] : List ℕ).zip
            ([37200, 37500, 37800, 39000, 39300] : List ℕ).tail,
            300 + 5 < p.2 - p.1
            ∧ (⟨37800, 39000, 3⟩ : GapRecord)
                = ⟨p.1, p.2, roundDiv (p.2 - p.1) 300 - 1⟩) :=
  ⟨by decide, gap_detect_spec.1 300 5 _ (by decide) ⟨37800, 39000, 3⟩⟩

/-! ## Parser theorems -/

/-- C5: only lines whose marker triple matches D,DISPATCH,UNIT_SCADA produce
records, and the example archive lines — a C-row, an I-row and one matching
D-row — yield exactly one record {settlement = 2025-01-15T10:30:00,
id = BASTYAN, value = 82.5} with the C- and I-rows contributing zero. -/
theorem unit_scada_parse_spec :
    (∀ (line : String) (r : ScadaRecord), classifyLine line = .parsed r →
      (lineFields line).take 3 = [['D'], "DISPATCH".data, "UNIT_SCADA".data])
    ∧ parseUnitScada [exampleCLine, exampleILine, exampleDLine]
        = ([⟨"2025-01-15T10:30:00", "BASTYAN", mkRat 165 2⟩], 0)
    ∧ classifyLine exampleCLine = .ignored
    ∧ classifyLine exampleILine = .ignored := by
  refine ⟨?_, by decide, by decide, by decide⟩
  intro line r hp
  unfold classifyLine at hp
  rcases hf : lineFields line with _ | ⟨a, _ | ⟨b, _ | ⟨c, rest⟩⟩⟩
  · rw [hf] at hp
    simp at hp
  · rw [hf] at hp
    simp at hp
  · rw [hf] at hp
    simp at hp
  · rw [hf] at hp
    split at hp
    · rename_i rowClass2 table2 subtype2 rest2 heq
      split at hp
      · rename_i hcond
        obtain ⟨h1, h2, h3⟩ := hcond
        obtain ⟨e1, e2, e3, _⟩ : a = rowClass2 ∧ b = table2 ∧ c = subtype2 ∧ rest = rest2 := by
          injection heq with j1 jr
          injection jr with j2 jr2
          injection jr2 with j3 j4
          exact ⟨j1, j2, j3, j4⟩
        rw [e1, e2, e3, h1, h2, h3]
        rfl
      · simp at hp
    · rename_i hno
      exact absurd rfl (hno a b c rest)

/-- Witness for C5 at the example D-row. -/
theorem unit_scada_parse_spec_witness :
    classifyLine exampleDLine
        = .parsed ⟨"2025-01-15T10:30:00", "BASTYAN", mkRat 165 2⟩
    ∧ (lineFields exampleDLine).take 3 = [['D'], "DISPATCH".data, "UNIT_SCADA".data] :=
  ⟨by decide,
    unit_scada_parse_spec.1 exampleDLine
      ⟨"2025-01-15T10:30:00", "BASTYAN", mkRat 165 2⟩ (by decide)⟩

/-! ## Orchestrator theorems -/

theorem runCycle_cons (st : OrchState) (now : ℕ)
    (x : String × Except IngestError (List DispatchRecord))
    (sources : List (String × Except IngestError (List DispatchRecord))) :
    runCycle st now (x :: sources) = runCycle (runSource st now x.1 x.2) now sources := rfl

theorem runCycle_append (st : OrchState) (now : ℕ)
    (l1 l2 : List (String × Except IngestError (List DispatchRecord))) :
    runCycle st now (l1 ++ l2) = runCycle (runCycle st now l1) now l2 :=
  List.foldl_append _ _ _ _

theorem runSource_cursor_other {st : OrchState} {now : ℕ} {src s : String}
    {res : Except IngestError (List DispatchRecord)} (h : s ≠ src) :
    (runSource st now src res).cursors s = st.cursors s := by
  unfold runSource
  cases res with
  | ok recs => simp [h]
  | error e => rfl

theorem runCycle_cursor_not_mem :
    ∀ (sources : List (String × Except IngestError (List DispatchRecord)))
      (st : OrchState) (now : ℕ) (s : String), s ∉ sources.map Prod.fst →
      (runCycle st now sources).cursors s = st.cursors s
  | [], _, _, _, _ => rfl
  | x :: rest, st, now, s, h => by
    have h' : s ≠ x.1 ∧ s ∉ rest.map Prod.fst := by
      simp only [List.map_cons, List.mem_cons] at h
      push_neg at h
      exact h
    rw [runCycle_cons,
      runCycle_cursor_not_mem rest _ now s h'.2,
      runSource_cursor_other h'.1]

/-- C7: in a cycle, a source's cursor is advanced to the cycle timestamp if
and only if that source's entire fetch → parse → persist pipeline succeeds;
on any failure — including a PersistenceError on write — its cursor is left
unchanged; and the pipeline succeeds exactly when all three stages succeed. -/
theorem cursor_advance_iff_success :
    (∀ (st : OrchState) (now : ℕ)
        (sources : List (String × Except IngestError (List DispatchRecord)))
        (src : String) (res : Except IngestError (List DispatchRecord)),
      (sources.map Prod.fst).Nodup → (src, res) ∈ sources →
        ((∀ recs, res = .ok recs →
            (runCycle st now sources).cursors src = some now)
          ∧ (∀ e, res = .error e →
            (runCycle st now sources).cursors src = st.cursors src)))
    ∧ (∀ (fetched : Except IngestError (List String))
        (parseStage : List String → Except IngestError (List DispatchRecord))
        (persistStage : List DispatchRecord → Except IngestError Unit),
      (∃ recs, pipelineResult fetched parseStage persistStage = .ok recs)
        ↔ ∃ lines, fetched = .ok lines
            ∧ ∃ recs, parseStage lines = .ok recs ∧ persistStage recs = .ok ()) := by
  constructor
  · intro st now sources src res hnodup hmem
    obtain ⟨pre, post, rfl⟩ := List.append_of_mem hmem
    have hmap : (pre ++ (src, res) :: post).map Prod.fst
        = pre.map Prod.fst ++ src :: post.map Prod.fst := by
      simp
    rw [hmap] at hnodup
    rw [List.nodup_append] at hnodup
    obtain ⟨hpre, hcons, hdisj⟩ := hnodup
    have hsrc_pre : src ∉ pre.map Prod.fst := fun hin =>
      hdisj hin (List.mem_cons_self _ _)
    have hsrc_post : src ∉ post.map Prod.fst := (List.nodup_cons.mp hcons).1
    have hmid : (runCycle st now (pre ++ (src, res) :: post)).cursors src
        = (runSource (runCycle st now pre) now src res).cursors src := by
      rw [runCycle_append, runCycle_cons]
      exact runCycle_cursor_not_mem post _ now src hsrc_post
    constructor
    · intro recs hok
      subst hok
      rw [hmid]
      unfold runSource
      simp
    · intro e herr
      subst herr
      rw [hmid]
      unfold runSource
      exact runCycle_cursor_not_mem pre st now src hsrc_pre
  · intro fetched parseStage persistStage
    constructor
    · rintro ⟨recs, hok⟩
      unfold pipelineResult at hok
      split at hok
      · exact absurd hok (by simp)
      · rename_i lines
        split at hok
        · exact absurd hok (by simp)
        · rename_i recs' heq
          split at hok
          · exact absurd hok (by simp)
          · rename_i u heq2
            cases u
            exact ⟨lines, rfl, recs', heq, heq2⟩
    · rintro ⟨lines, hf, recs, hpp, hq⟩
      subst hf
      refine ⟨recs, ?_⟩
      show (match parseStage lines with
          | Except.error e => (Except.error e : Except IngestError (List DispatchRecord))
          | Except.ok recs2 =>
            match persistStage recs2 with
            | Except.error e => Except.error e
            | Except.ok _ => Except.ok recs2) = Except.ok recs
      rw [hpp]
      show (match persistStage recs with
          | Except.error e => (Except.error e : Except IngestError (List DispatchRecord))
          | Except.ok _ => Except.ok recs) = Except.ok recs
      rw [hq]

/-- Witness for C7: one succeeding source advances its cursor to the cycle
timestamp while a source failing with PersistenceError keeps its cursor. -/
theorem cursor_advance_iff_success_witness :
    ((witnessSources.map Prod.fst).Nodup
      ∧ (runCycle witnessState 100 witnessSources).cursors "dispatch" = some 100)
    ∧ ((runCycle witnessState 100 witnessSources).cursors "price"
          = witnessState.cursors "price"
      ∧ (∃ recs, pipelineResult (Except.ok [exampleDLine])
            (fun _ => Except.ok [bastyanRecord])
            (fun _ => Except.ok ())
          = Except.ok recs)) := by
  refine ⟨⟨by decide, ?_⟩, ?_, ?_⟩
  · exact (cursor_advance_iff_success.1 witnessState 100 witnessSources "dispatch"
      (Except.ok [bastyanRecord]) (by decide) (List.mem_cons_self _ _)).1
      [bastyanRecord] rfl
  · exact (cursor_advance_iff_success.1 witnessState 100 witnessSources "price"
      (Except.error IngestError.persistenceError) (by decide)
      (List.mem_cons_of_mem _ (List.mem_cons_self _ _))).2
      IngestError.persistenceError rfl
  · exact (cursor_advance_iff_success.2 (Except.ok [exampleDLine])
      (fun _ => Except.ok [bastyanRecord]) (fun _ => Except.ok ())).mpr
      ⟨[exampleDLine], rfl, [bastyanRecord], rfl, rfl⟩

/-! ## Market metrics theorems -/

theorem sum_lt_length_mul : ∀ (l : List ℚ) (c : ℚ), l ≠ [] → (∀ y ∈ l, y < c) →
    l.sum < (l.length : ℚ) * c
  | [], _, h, _ => absurd rfl h
  | [y], c, _, hy => by
    have := hy y (List.mem_cons_self _ _)
    simpa using this
  | y :: z :: t, c, _, hy => by
    have ih := sum_lt_length_mul (z :: t) c (by simp) (fun w hw => hy w (List.mem_cons_of_mem _ hw))
    have h1 : y < c := hy y (List.mem_cons_self _ _)
    simp only [List.sum_cons, List.length_cons] at *
    push_cast
    push_cast at ih
    nlinarith [ih, h1]

/-- C8 counterexample: on a two-interval day with prices 1 and −3 (negative
prices are legal in the NEM), a generator producing 5 MW only during the
strictly highest-priced interval and zero elsewhere has
capture_rate = 1 / ((1 + (−3))/2) = −1, which is not greater than 1. -/
theorem capture_rate_counterexample :
    ((-3 : ℚ) < 1 ∧ (0 : ℚ) < 5)
    ∧ captureRate [((1 : ℚ), (5 : ℚ)), ((-3 : ℚ), (0 : ℚ))] = -1
    ∧ ¬ 1 < captureRate [((1 : ℚ), (5 : ℚ)), ((-3 : ℚ), (0 : ℚ))] := by
  norm_num [captureRate, capturePrice, twap]

/-- C8 amended: on a day of at least two dispatch intervals whose
time-weighted average price is positive, a generator with positive output only
during the day's single (strictly) highest-priced interval and zero output in
all other intervals has capture_rate strictly greater than 1. -/
theorem capture_rate_amended (a b : List (ℚ × ℚ)) (x : ℚ × ℚ)
    (hmax : ∀ y ∈ a ++ b, y.1 < x.1)
    (hzero : ∀ y ∈ a ++ b, y.2 = 0)
    (hgen : 0 < x.2)
    (hne : a ++ b ≠ [])
    (htwap : 0 < twap ((a ++ x :: b).map Prod.fst)) :
    1 < captureRate (a ++ x :: b) := by
  have hzeroA : ∀ y ∈ a, y.2 = 0 := fun y hy => hzero y (List.mem_append_left _ hy)
  have hzeroB : ∀ y ∈ b, y.2 = 0 := fun y hy => hzero y (List.mem_append_right _ hy)
  have hgsum : ((a ++ x :: b).map Prod.snd).sum = x.2 := by
    rw [List.map_append, List.sum_append, List.map_cons, List.sum_cons]
    have ha : (a.map Prod.snd).sum = 0 := List.sum_eq_zero (by
      intro z hz
      obtain ⟨y, hy, rfl⟩ := List.mem_map.mp hz
      exact hzeroA y hy)
    have hb : (b.map Prod.snd).sum = 0 := List.sum_eq_zero (by
      intro z hz
      obtain ⟨y, hy, rfl⟩ := List.mem_map.mp hz
      exact hzeroB y hy)
    rw [ha, hb]
    ring
  have hnum : ((a ++ x :: b).map (fun pg => pg.2 * pg.1)).sum = x.2 * x.1 := by
    rw [List.map_append, List.sum_append, List.map_cons, List.sum_cons]
    have ha : (a.map (fun pg => pg.2 * pg.1)).sum = 0 := List.sum_eq_zero (by
      intro z hz
      obtain ⟨y, hy, rfl⟩ := List.mem_map.mp hz
      rw [hzeroA y hy]
      ring)
    have hb : (b.map (fun pg => pg.2 * pg.1)).sum = 0 := List.sum_eq_zero (by
      intro z hz
      obtain ⟨y, hy, rfl⟩ := List.mem_map.mp hz
      rw [hzeroB y hy]
      ring)
    rw [ha, hb]
    ring
  have hcp : capturePrice (a ++ x :: b) = x.1 := by
    unfold capturePrice
    rw [hnum, hgsum, mul_comm, mul_div_assoc, div_self (ne_of_gt hgen), mul_one]
  have hRne : a.map Prod.fst ++ b.map Prod.fst ≠ [] := by
    intro hR
    apply hne
    rw [List.append_eq_nil] at hR ⊢
    constructor
    · exact List.map_eq_nil_iff.mp hR.1
    · exact List.map_eq_nil_iff.mp hR.2
  have hRlt : ∀ y ∈ a.map Prod.fst ++ b.map Prod.fst, y < x.1 := by
    intro y hy
    rcases List.mem_append.mp hy with h | h
    · obtain ⟨z, hz, rfl⟩ := List.mem_map.mp h
      exact hmax z (List.mem_append_left _ hz)
    · obtain ⟨z, hz, rfl⟩ := List.mem_map.mp h
      exact hmax z (List.mem_append_right _ hz)
  have hsumlt := sum_lt_length_mul _ x.1 hRne hRlt
  have hPsum : ((a ++ x :: b).map Prod.fst).sum
      = (a.map Prod.fst ++ b.map Prod.fst).sum + x.1 := by
    simp only [List.map_append, List.sum_append, List.map_cons, List.sum_cons]
    ring
  have hPlen : (((a ++ x :: b).map Prod.fst).length : ℚ)
      = ((a.map Prod.fst ++ b.map Prod.fst).length : ℚ) + 1 := by
    simp only [List.length_map, List.length_append, List.length_cons]
    push_cast
    ring
  have htwap_lt : twap ((a ++ x :: b).map Prod.fst) < x.1 := by
    unfold twap
    rw [hPsum, hPlen]
    rw [div_lt_iff₀ (by positivity)]
    nlinarith [hsumlt]
  unfold captureRate
  rw [hcp]
  exact (one_lt_div htwap).mpr htwap_lt

/-- Witness for the amended C8 at a concrete three-interval day. -/
theorem capture_rate_amended_witness :
    0 < twap (([((10 : ℚ), (0 : ℚ)), ((20 : ℚ), (5 : ℚ)), ((6 : ℚ), (0 : ℚ))]).map Prod.fst)
    ∧ 1 < captureRate [((10 : ℚ), (0 : ℚ)), ((20 : ℚ), (5 : ℚ)), ((6 : ℚ), (0 : ℚ))] := by
  have htw : 0 < twap (([((10 : ℚ), (0 : ℚ)), ((20 : ℚ), (5 : ℚ)), ((6 : ℚ), (0 : ℚ))]).map Prod.fst) := by
    norm_num [twap]
  refine ⟨htw, ?_⟩
  exact capture_rate_amended [((10 : ℚ), (0 : ℚ))] [((6 : ℚ), (0 : ℚ))] ((20 : ℚ), (5 : ℚ))
    (by decide) (by decide) (by decide) (by decide) htw

/-! ## StateDetailPage theorems -/

theorem foldl_add_eq (l : List (String × ℚ)) : ∀ c : ℚ,
    l.foldl (fun acc p => acc + p.2) c = c + (l.map Prod.snd).sum := by
  induction l with
  | nil => intro c; simp
  | cons x xs ih =>
    intro c
    simp only [List.foldl_cons, List.map_cons, List.sum_cons, ih]
    ring

theorem mem_keys_addTotal (f g : String) (v : ℚ) : ∀ acc : List (String × ℚ),
    g ∈ (addTotal acc f v).map Prod.fst ↔ g ∈ acc.map Prod.fst ∨ g = f
  | [] => by simp [addTotal]
  | (a, w) :: rest => by
    unfold addTotal
    by_cases haf : a = f
    · rw [if_pos haf]
      subst haf
      simp only [List.map_cons, List.mem_cons]
      tauto
    · rw [if_neg haf]
      simp only [List.map_cons, List.mem_cons, mem_keys_addTotal f g v rest]
      tauto

theorem nodup_keys_addTotal (f : String) (v : ℚ) : ∀ acc : List (String × ℚ),
    (acc.map Prod.fst).Nodup → ((addTotal acc f v).map Prod.fst).Nodup
  | [], _ => by simp [addTotal]
  | (a, w) :: rest, h => by
    unfold addTotal
    simp only [List.map_cons, List.nodup_cons] at h
    by_cases haf : a = f
    · rw [if_pos haf]
      simp only [List.map_cons, List.nodup_cons]
      exact h
    · rw [if_neg haf]
      simp only [List.map_cons, List.nodup_cons]
      refine ⟨?_, nodup_keys_addTotal f v rest h.2⟩
      intro hmem
      rw [mem_keys_addTotal] at hmem
      rcases hmem with hm | he
      · exact h.1 hm
      · exact haf he

theorem nodup_keys_fuelTotals_go :
    ∀ (history : List GenHistoryRecord) (acc : List (String × ℚ)),
      (acc.map Prod.fst).Nodup →
      ((history.foldl
          (fun a row => addTotal a row.fuel_source (row.generation_mw.getD 0)) acc).map
        Prod.fst).Nodup
  | [], _, h => h
  | _ :: rest, acc, h =>
    nodup_keys_fuelTotals_go rest _ (nodup_keys_addTotal _ _ acc h)

theorem mem_keys_fuelTotals_go :
    ∀ (history : List GenHistoryRecord) (acc : List (String × ℚ)) (g : String),
      g ∈ (history.foldl
          (fun a row => addTotal a row.fuel_source (row.generation_mw.getD 0)) acc).map
        Prod.fst
        ↔ g ∈ acc.map Prod.fst ∨ g ∈ history.map GenHistoryRecord.fuel_source
  | [], acc, g => by simp
  | r :: rest, acc, g => by
    simp only [List.foldl_cons]
    rw [mem_keys_fuelTotals_go rest _ g, mem_keys_addTotal]
    simp only [List.map_cons, List.mem_cons]
    tauto

theorem perm_insertByGen (e : FuelMixEntry) : ∀ l : List FuelMixEntry,
    (insertByGen e l).Perm (e :: l)
  | [] => List.Perm.refl _
  | x :: xs => by
    unfold insertByGen
    split
    · exact ((perm_insertByGen e xs).cons x).trans (List.Perm.swap e x xs)
    · exact List.Perm.refl _

theorem perm_sortByGenDesc : ∀ l : List FuelMixEntry, (sortByGenDesc l).Perm l
  | [] => List.Perm.refl _
  | x :: xs =>
    (perm_insertByGen x (sortByGenDesc xs)).trans ((perm_sortByGenDesc xs).cons x)

theorem pairwise_insertByGen (e : FuelMixEntry) : ∀ l : List FuelMixEntry,
    List.Pairwise (fun a b => b.generation_mw ≤ a.generation_mw) l →
    List.Pairwise (fun a b => b.generation_mw ≤ a.generation_mw) (insertByGen e l)
  | [], _ => by simp [insertByGen]
  | x :: xs, h => by
    unfold insertByGen
    rcases List.pairwise_cons.mp h with ⟨hx, hxs⟩
    split
    · rename_i hle
      rw [List.pairwise_cons]
      refine ⟨?_, pairwise_insertByGen e xs hxs⟩
      intro y hy
      rcases List.mem_cons.mp ((perm_insertByGen e xs).mem_iff.mp hy) with rfl | hyxs
      · exact hle
      · exact hx y hyxs
    · rename_i hgt
      push_neg at hgt
      rw [List.pairwise_cons]
      refine ⟨?_, h⟩
      intro y hy
      rcases List.mem_cons.mp hy with rfl | hyxs
      · exact le_of_lt hgt
      · exact le_trans (hx y hyxs) (le_of_lt hgt)

theorem pairwise_sortByGenDesc : ∀ l : List FuelMixEntry,
    List.Pairwise (fun a b => b.generation_mw ≤ a.generation_mw) (sortByGenDesc l)
  | [] => by simp [sortByGenDesc]
  | x :: xs => pairwise_insertByGen x _ (pairwise_sortByGenDesc xs)

theorem sum_map_share (t : ℚ) : ∀ l : List (String × ℚ),
    (l.map (fun p => p.2 / t * 100)).sum = (l.map Prod.snd).sum / t * 100
  | [] => by simp
  | x :: xs => by
    simp only [List.map_cons, List.sum_cons, sum_map_share t xs]
    ring

theorem agg_eq {history : List GenHistoryRecord}
    (hne : history ≠ []) (h : fuelMixTotal history ≠ 0) :
    aggregatedFuelMix history
      = sortByGenDesc ((fuelTotals history).map (fuelEntry (fuelMixTotal history))) := by
  unfold aggregatedFuelMix
  rw [if_neg hne, if_neg h]

theorem agg_fuels_perm {history : List GenHistoryRecord}
    (hne : history ≠ []) (h : fuelMixTotal history ≠ 0) :
    ((aggregatedFuelMix history).map FuelMixEntry.fuel_source).Perm
      ((fuelTotals history).map Prod.fst) := by
  rw [agg_eq hne h]
  have h1 := (perm_sortByGenDesc
    ((fuelTotals history).map (fuelEntry (fuelMixTotal history)))).map
    FuelMixEntry.fuel_source
  have h2 : ((fuelTotals history).map (fuelEntry (fuelMixTotal history))).map
      FuelMixEntry.fuel_source = (fuelTotals history).map Prod.fst := by
    rw [List.map_map]
    rfl
  rw [h2] at h1
  exact h1

/-- C9: aggregatedFuelMix returns [] on an empty history or a zero per-fuel
total; otherwise it returns exactly one entry per distinct fuel_source (no
duplicates, and exactly the fuels of the input), sorted in non-increasing
order of generation_mw, with the percentages summing to 100. -/
theorem aggregated_fuel_mix_spec (history : List GenHistoryRecord) :
    (history = [] → aggregatedFuelMix history = [])
    ∧ (fuelMixTotal history = 0 → aggregatedFuelMix history = [])
    ∧ (fuelMixTotal history ≠ 0 →
        ((aggregatedFuelMix history).map FuelMixEntry.fuel_source).Nodup
        ∧ (∀ f, f ∈ (aggregatedFuelMix history).map FuelMixEntry.fuel_source
            ↔ f ∈ history.map GenHistoryRecord.fuel_source)
        ∧ List.Pairwise (fun a b => b.generation_mw ≤ a.generation_mw)
            (aggregatedFuelMix history)
        ∧ ((aggregatedFuelMix history).map FuelMixEntry.percentage).sum = 100) := by
  refine ⟨?_, ?_, ?_⟩
  · intro h
    subst h
    rfl
  · intro h
    by_cases hnil : history = []
    · subst hnil
      rfl
    · unfold aggregatedFuelMix
      rw [if_neg hnil, if_pos h]
  · intro h
    have hne : history ≠ [] := by
      intro hnil
      apply h
      subst hnil
      rfl
    refine ⟨?_, ?_, ?_, ?_⟩
    · exact ((agg_fuels_perm hne h).nodup_iff).mpr
        (nodup_keys_fuelTotals_go history [] (by simp))
    · intro f
      rw [(agg_fuels_perm hne h).mem_iff]
      simpa using mem_keys_fuelTotals_go history [] f
    · rw [agg_eq hne h]
      exact pairwise_sortByGenDesc _
    · rw [agg_eq hne h]
      have hperm := (perm_sortByGenDesc
        ((fuelTotals history).map (fuelEntry (fuelMixTotal history)))).map
        FuelMixEntry.percentage
      rw [hperm.sum_eq, List.map_map]
      have hfn : (FuelMixEntry.percentage ∘ fuelEntry (fuelMixTotal history))
          = (fun p : String × ℚ => p.2 / fuelMixTotal history * 100) := rfl
      rw [hfn, sum_map_share]
      have hT : fuelMixTotal history = ((fuelTotals history).map Prod.snd).sum := by
        unfold fuelMixTotal
        rw [foldl_add_eq]
        ring
      rw [← hT, div_self h]
      norm_num

/-- Witness for C9 at a concrete three-record history with two Coal rows. -/
theorem aggregated_fuel_mix_spec_witness :
    fuelMixTotal historyW ≠ 0
    ∧ ((aggregatedFuelMix historyW).map FuelMixEntry.fuel_source).Nodup
    ∧ ("Coal" ∈ (aggregatedFuelMix historyW).map FuelMixEntry.fuel_source
        ↔ "Coal" ∈ historyW.map GenHistoryRecord.fuel_source)
    ∧ List.Pairwise (fun a b => b.generation_mw ≤ a.generation_mw)
        (aggregatedFuelMix historyW)
    ∧ ((aggregatedFuelMix historyW).map FuelMixEntry.percentage).sum = 100 := by
  have h : fuelMixTotal historyW ≠ 0 := by
    norm_num [fuelMixTotal, fuelTotals, addTotal, historyW]
  obtain ⟨hn, hm, hs, hp⟩ := (aggregated_fuel_mix_spec historyW).2.2 h
  exact ⟨h, hn, hm "Coal", hs, hp⟩

/-- C10: whenever any of the four parallel region requests fails, fetchData
installs the fabricated state: the all-zero summary, the three-entry
zero-generation Coal/Solar/Wind fuel mix, and empty price and generation
histories. -/
theorem fetch_failure_zero_state (region : String)
    (priceResp : FetchOutcome (List PricePoint))
    (fuelResp : FetchOutcome (List FuelMixEntry))
    (summaryResp : FetchOutcome RegionSummary)
    (genResp : FetchOutcome (List GenHistoryRecord))
    (h : priceResp = .failed ∨ fuelResp = .failed ∨ summaryResp = .failed
        ∨ genResp = .failed) :
    fetchDataState region priceResp fuelResp summaryResp genResp
      = ⟨[], [⟨"Coal", 0, 0, 0⟩, ⟨"Solar", 0, 0, 0⟩, ⟨"Wind", 0, 0, 0⟩],
          some ⟨region, 0, 0, 0, 0⟩, []⟩ := by
  cases priceResp <;> cases fuelResp <;> cases summaryResp <;> cases genResp <;>
    try rfl
  rcases h with h | h | h | h <;> exact FetchOutcome.noConfusion h

/-- Witness for C10: a single failing request yields the fabricated zero
state. -/
theorem fetch_failure_zero_state_witness :
    fetchDataState "NSW" (FetchOutcome.ok []) FetchOutcome.failed
        (FetchOutcome.ok ⟨"NSW", 85, 7500, 8000, 10⟩) (FetchOutcome.ok [])
      = ⟨[], [⟨"Coal", 0, 0, 0⟩, ⟨"Solar", 0, 0, 0⟩, ⟨"Wind", 0, 0, 0⟩],
          some ⟨"NSW", 0, 0, 0, 0⟩, []⟩ :=
  fetch_failure_zero_state "NSW" (FetchOutcome.ok []) FetchOutcome.failed
    (FetchOutcome.ok ⟨"NSW", 85, 7500, 8000, 10⟩) (FetchOutcome.ok [])
    (Or.inr (Or.inl rfl))

end NemDash
